import Mathlib

/-!
# Verification of the rate normalization and best-rate selection engine

A shallow embedding, in Lean 4, of the core of the `automations` repository:
the hotel-rate pipeline in `src/automations/shared/hotels.py` and the stay
aggregation in `src/automations/rates.py`.

Modelling conventions:
* Python strings are Lean `String`s; the Python string operations used by the
  code (`str.lower`, `str.strip`, `str.find(sub) != -1`, single-character
  `str.replace(c, "")`, `int(s)`) are embedded as executable functions over
  the underlying character lists.
* Python's regex substitution `re.sub(pattern, "", s)` is an external engine
  from the embedding's point of view; every definition that uses it is
  parametrised over a substitution function `reSub : String → String → String`
  (pattern, input ↦ output).
* Python `float` totals are embedded as exact rationals (`Rat`); the code
  only compares and sorts them.
* Exceptions (`KeyError`, `ValueError`) are embedded with `Except PyErr`.
* Python `dict` (insertion-ordered, in-place value update) is embedded as an
  association list where updating an existing key keeps its position and a
  new key is appended at the end.
* Python's stable `list.sort(key=...)` is embedded as `List.insertionSort`
  with the corresponding (total, transitive) `≤` relation; a stable sort's
  output is determined uniquely by the relation and the input order, so this
  is observationally the sort the code performs.
-/

/-- The two rate providers (the `Literal["booking.com", "hotels.com"]` tag of
the `RoomRate` dataclass). -/
inductive Provider where
  | booking_com
  | hotels_com
deriving DecidableEq, Repr

/-- Embedding of the `RoomRate` dataclass of `shared/hotels.py`. -/
structure RoomRate where
  provider : Provider
  hotel_name : String
  room_type : String
  total : Rat
  policy : String := "Unknown"
deriving DecidableEq, Repr

/-- Embedding of the Python exceptions the parsers can raise. -/
inductive PyErr where
  | keyError (key : String)
  | valueError (msg : String)
deriving DecidableEq, Repr

instance {ε α : Type} [DecidableEq ε] [DecidableEq α] : DecidableEq (Except ε α) := fun x y =>
  match x, y with
  | .ok a, .ok b => decidable_of_iff (a = b) (by simp)
  | .ok _, .error _ => isFalse (by simp)
  | .error _, .ok _ => isFalse (by simp)
  | .error e, .error f => decidable_of_iff (e = f) (by simp)

/-- The `(room_type, policy)` key the best-rate reduction deduplicates on. -/
def rateKey (r : RoomRate) : String × String :=
  (r.room_type, r.policy)

/-- The comparison of `_best_rates`: the stored record `b` is replaced by the
new record `r` exactly when `b.total > r.total` (so ties keep the stored,
first-seen record). -/
def pick (b r : RoomRate) : RoomRate :=
  if b.total > r.total then r else b

/-- One step of the dict update in `_best_rates`: `room_rates[key] = rate` on
a fresh key appends at the end; on a present key it replaces the stored value
in place (keeping the key's position), and only when the stored total is
strictly greater. -/
def updateRate : List ((String × String) × RoomRate) → RoomRate →
    List ((String × String) × RoomRate)
  | [], r => [(rateKey r, r)]
  | (k, b) :: m, r =>
    if k = rateKey r then
      (k, pick b r) :: m
    else
      (k, b) :: updateRate m r

/-- The `room_rates` dict built by the loop of `_best_rates`. -/
def ratesMap (rates : List RoomRate) : List ((String × String) × RoomRate) :=
  rates.foldl updateRate []

/-- The `rates.sort(key=lambda x: x.total)` relation. -/
def totalLe (a b : RoomRate) : Prop :=
  a.total ≤ b.total

instance : DecidableRel totalLe := fun a b => inferInstanceAs (Decidable (a.total ≤ b.total))

instance : IsTotal RoomRate totalLe := ⟨fun a b => le_total a.total b.total⟩

instance : IsTrans RoomRate totalLe := ⟨fun _ _ _ h h' => le_trans h h'⟩

/-- Embedding of `_best_rates` of `shared/hotels.py`: collapse to one record
per `(room_type, policy)` key keeping the strictly lowest total, then stable
sort ascending by total. -/
def _best_rates (rates : List RoomRate) : List RoomRate :=
  ((ratesMap rates).map Prod.snd).insertionSort totalLe

/-- Python `str.lower()` (over the code points the data uses). -/
def pyLower (s : String) : String :=
  ⟨s.data.map Char.toLower⟩

/-- Python `str.strip()`: drop whitespace from both ends. -/
def pyStrip (s : String) : String :=
  ⟨(s.data.dropWhile Char.isWhitespace).reverse.dropWhile Char.isWhitespace |>.reverse⟩

/-- Python `hay.find(needle) != -1`: does `needle` occur contiguously anywhere
in `hay`? -/
def hasSub (needle : List Char) : List Char → Bool
  | [] => needle.isEmpty
  | c :: t => needle.isPrefixOf (c :: t) || hasSub needle t

/-- Python `s.replace(c, "")` for a single-character pattern: remove every
occurrence of the character. -/
def removeAllChar (c : Char) (s : String) : String :=
  ⟨s.data.filter (· ≠ c)⟩

/-- The digits of a decimal numeral, as a natural number. -/
def digitsToNat? (cs : List Char) : Option Nat :=
  if cs ≠ [] ∧ cs.all Char.isDigit then
    some (cs.foldl (fun n c => 10 * n + (c.toNat - '0'.toNat)) 0)
  else
    none

/-- Python `int(s)` on a string, as a fallible conversion: surrounding
whitespace is ignored, an optional sign precedes the digits. -/
def pyInt? (s : String) : Option Int :=
  match (pyStrip s).data with
  | '-' :: cs => (digitsToNat? cs).map fun n => -(n : Int)
  | '+' :: cs => (digitsToNat? cs).map fun n => (n : Int)
  | cs => (digitsToNat? cs).map fun n => (n : Int)

/-- The amount cleanup of `_process_booking_com_rates`:
`int(amount_rounded.replace("£", "").replace(",", ""))`. -/
def parseAmount (s : String) : Option Int :=
  pyInt? (removeAllChar ',' (removeAllChar '£' s))

/-- The room-filter test shared by both parsers (`shared/hotels.py` lines
81–84 and 142–144): the room is *kept* unless the filter set is non-empty and
every filter term fails the substring test against
`room_type.lower().strip()`. -/
def keepRoom (room_filter : List String) (room_type : String) : Bool :=
  !(!room_filter.isEmpty &&
    room_filter.all fun t => !hasSub t.data (pyStrip (pyLower room_type)).data)

/-- The pattern-substitution loop both parsers run over a room name:
`for pattern in room_patterns: room_type = re.sub(pattern, "", room_type)`,
parametrised over the regex engine `reSub`. -/
def normalizeName (reSub : String → String → String) (room_patterns : List String)
    (name : String) : String :=
  room_patterns.foldl (fun s p => reSub p s) name

/-- One room entry of the booking.com response's `data.block` array, holding
the three fields `_process_booking_com_rates` reads. -/
structure BookingRoom where
  name : String
  amount_rounded : String
  policy : String
deriving DecidableEq, Repr

/-- The booking.com response shape the parser walks (`data["data"]["block"]`). -/
structure BookingData where
  block : List BookingRoom
deriving DecidableEq, Repr

/-- The loop of `_process_booking_com_rates` over `data["data"]["block"]`:
normalize the name, filter, parse the amount (a `ValueError` aborts the whole
parse), and emit a `RoomRate` tagged `booking.com`. -/
def processBookingRooms (reSub : String → String → String) (hotel_name : String)
    (room_filter : List String) (room_patterns : List String) :
    List BookingRoom → Except PyErr (List RoomRate)
  | [] => .ok []
  | room :: rest =>
    let room_type := normalizeName reSub room_patterns room.name
    if keepRoom room_filter room_type then
      match parseAmount room.amount_rounded with
      | none => .error (.valueError "invalid literal for int()")
      | some amount =>
        (processBookingRooms reSub hotel_name room_filter room_patterns rest).map
          fun tail =>
            { provider := .booking_com, hotel_name := hotel_name,
              room_type := room_type, total := (amount : Rat),
              policy := room.policy } :: tail
    else
      processBookingRooms reSub hotel_name room_filter room_patterns rest

/-- Embedding of `_process_booking_com_rates` of `shared/hotels.py`. -/
def _process_booking_com_rates (reSub : String → String → String)
    (hotel_name : String) (data : BookingData) (room_filter : List String)
    (room_patterns : List String) : Except PyErr (List RoomRate) :=
  processBookingRooms reSub hotel_name room_filter room_patterns data.block

/-- A JSON field that can be missing from its object, `null`, or present. -/
inductive JField (α : Type) where
  | absent
  | null
  | val (a : α)
deriving DecidableEq, Repr

/-- One `priceDetails` entry of a hotels.com rate plan: the parser reads
`detail["lodgingPrepareCheckout"]["action"]["totalPrice"]["amount"]`. -/
structure HotelsPriceDetail where
  amount : Rat
deriving DecidableEq, Repr

/-- One `ratePlans` entry of a hotels.com property unit. -/
structure HotelsRatePlan where
  priceDetails : List HotelsPriceDetail
deriving DecidableEq, Repr

/-- A hotels.com `propertyUnit`: the parser reads `header.text` and walks
`ratePlans`. -/
structure HotelsRoom where
  headerText : String
  ratePlans : List HotelsRatePlan
deriving DecidableEq, Repr

/-- One `primarySelections` entry of a hotels.com listing. -/
structure HotelsSelection where
  propertyUnit : HotelsRoom
deriving DecidableEq, Repr

/-- One entry of the hotels.com `categorizedListings` array. -/
structure HotelsListing where
  primarySelections : List HotelsSelection
deriving DecidableEq, Repr

/-- The hotels.com response shape: `data["data"]["categorizedListings"]` can
be absent (a `KeyError` in the code), `null` (coerced to `[]` by `or []`), or
an array. -/
structure HotelsData where
  categorizedListings : JField (List HotelsListing)
deriving DecidableEq, Repr

/-- The `ValueError` `_process_hotels_com_rates` raises on a listing whose
`primarySelections` does not have exactly one entry. -/
def multiRoomErr : PyErr :=
  .valueError "More than one room in listing."

/-- The records one kept hotels.com property unit emits: one `RoomRate`
tagged `hotels.com` per rate plan × price detail, with the policy left at the
dataclass default `"Unknown"`. -/
def emitHotelsRates (hotel_name room_type : String) (plans : List HotelsRatePlan) :
    List RoomRate :=
  (plans.map fun plan =>
    plan.priceDetails.map fun detail =>
      { provider := .hotels_com, hotel_name := hotel_name,
        room_type := room_type, total := detail.amount,
        policy := "Unknown" : RoomRate }).flatten

/-- The loop of `_process_hotels_com_rates` over the listings: check
`len(primarySelections) == 1` (raising otherwise), filter on the *raw* header
text, normalize only after the filter, and emit the rate-plan records. -/
def processHotelsListings (reSub : String → String → String) (hotel_name : String)
    (rooms_filter : List String) (room_patterns : List String) :
    List HotelsListing → Except PyErr (List RoomRate)
  | [] => .ok []
  | listing :: rest =>
    match listing.primarySelections with
    | [sel] =>
      let room := sel.propertyUnit
      let room_type := room.headerText
      if keepRoom rooms_filter room_type then
        let room_type := normalizeName reSub room_patterns room_type
        (processHotelsListings reSub hotel_name rooms_filter room_patterns rest).map
          fun tail => emitHotelsRates hotel_name room_type room.ratePlans ++ tail
      else
        processHotelsListings reSub hotel_name rooms_filter room_patterns rest
    | _ => .error multiRoomErr

/-- Embedding of `_process_hotels_com_rates` of `shared/hotels.py`:
`data["data"]["categorizedListings"]` raises `KeyError` when the key is
absent, and `or []` turns a `null` value into the empty array. -/
def _process_hotels_com_rates (reSub : String → String → String)
    (hotel_name : String) (data : HotelsData) (rooms_filter : List String)
    (room_patterns : List String) : Except PyErr (List RoomRate) :=
  match data.categorizedListings with
  | .absent => .error (.keyError "categorizedListings")
  | .null => processHotelsListings reSub hotel_name rooms_filter room_patterns []
  | .val listings => processHotelsListings reSub hotel_name rooms_filter room_patterns listings

/-- The filter-term normalization both wrapper functions perform before
parsing: `room_filter = {room.lower().strip() for room in room_filter}`. -/
def normalizeFilter (room_filter : List String) : List String :=
  room_filter.map fun room => pyStrip (pyLower room)

/-- Embedding of `booking_com_rates` of `shared/hotels.py`, with the HTTP
response passed in place of the network call: normalize the filter terms,
parse, and apply `_best_rates` to this one call's records. -/
def booking_com_rates (reSub : String → String → String) (hotel_name : String)
    (data : BookingData) (room_filter : List String) (room_patterns : List String) :
    Except PyErr (List RoomRate) :=
  (_process_booking_com_rates reSub hotel_name data (normalizeFilter room_filter)
    room_patterns).map _best_rates

/-- Embedding of `hotels_com_rates` of `shared/hotels.py`, with the HTTP
response passed in place of the network call. -/
def hotels_com_rates (reSub : String → String → String) (hotel_name : String)
    (data : HotelsData) (room_filter : List String) (room_patterns : List String) :
    Except PyErr (List RoomRate) :=
  (_process_hotels_com_rates reSub hotel_name data (normalizeFilter room_filter)
    room_patterns).map _best_rates

/-- Python's `<` on strings: strict lexicographic comparison of the
code-point sequences. -/
def charListLt : List Char → List Char → Bool
  | _, [] => false
  | [], _ :: _ => true
  | a :: as, b :: bs => decide (a < b) || (decide (a = b) && charListLt as bs)

theorem charListLt_trans : ∀ {as bs cs : List Char},
    charListLt as bs = true → charListLt bs cs = true → charListLt as cs = true
  | _, [], _, h, _ => by simp [charListLt] at h
  | _, _ :: _, [], _, h' => by simp [charListLt] at h'
  | [], _ :: _, _ :: _, _, _ => by simp [charListLt]
  | a :: as, b :: bs, c :: cs, h, h' => by
    simp only [charListLt, Bool.or_eq_true, Bool.and_eq_true, decide_eq_true_eq] at h h' ⊢
    rcases h with h | ⟨rfl, h⟩
    · rcases h' with h' | ⟨rfl, _⟩
      · exact Or.inl (h.trans h')
      · exact Or.inl h
    · rcases h' with h' | ⟨rfl, h'⟩
      · exact Or.inl h'
      · exact Or.inr ⟨rfl, charListLt_trans h h'⟩

theorem charListLt_total : ∀ as bs : List Char,
    charListLt as bs = true ∨ as = bs ∨ charListLt bs as = true
  | [], [] => Or.inr (Or.inl rfl)
  | [], _ :: _ => Or.inl (by simp [charListLt])
  | _ :: _, [] => Or.inr (Or.inr (by simp [charListLt]))
  | a :: as, b :: bs => by
    rcases lt_trichotomy a b with h | rfl | h
    · exact Or.inl (by simp [charListLt, h])
    · rcases charListLt_total as bs with h' | rfl | h'
      · exact Or.inl (by simp [charListLt, h'])
      · exact Or.inr (Or.inl rfl)
      · exact Or.inr (Or.inr (by simp [charListLt, h']))
    · exact Or.inr (Or.inr (by simp [charListLt, h]))

/-- Python's `<` on strings, lifted to `String`. -/
def strLt (a b : String) : Bool :=
  charListLt a.data b.data

/-- The `all_rates.sort(key=lambda x: (x.hotel_name, x.total))` relation of
`get_stay_rates` in `rates.py`: lexicographic on `(hotel_name, total)`. -/
def hotelTotalLe (a b : RoomRate) : Prop :=
  strLt a.hotel_name b.hotel_name = true ∨
    (a.hotel_name = b.hotel_name ∧ a.total ≤ b.total)

instance : DecidableRel hotelTotalLe := fun a b =>
  inferInstanceAs (Decidable (strLt a.hotel_name b.hotel_name = true ∨
    (a.hotel_name = b.hotel_name ∧ a.total ≤ b.total)))

instance : IsTotal RoomRate hotelTotalLe := by
  constructor
  intro a b
  rcases charListLt_total a.hotel_name.data b.hotel_name.data with h | h | h
  · exact Or.inl (Or.inl h)
  · have he : a.hotel_name = b.hotel_name := String.ext h
    rcases le_total a.total b.total with h' | h'
    · exact Or.inl (Or.inr ⟨he, h'⟩)
    · exact Or.inr (Or.inr ⟨he.symm, h'⟩)
  · exact Or.inr (Or.inl h)

instance : IsTrans RoomRate hotelTotalLe := by
  constructor
  intro a b c hab hbc
  rcases hab with h | ⟨he, ht⟩
  · rcases hbc with h' | ⟨he', _⟩
    · exact Or.inl (charListLt_trans h h')
    · exact Or.inl (by rw [strLt] at h ⊢; rw [← he']; exact h)
  · rcases hbc with h' | ⟨he', ht'⟩
    · exact Or.inl (by rw [strLt] at h' ⊢; rw [he]; exact h')
    · exact Or.inr ⟨he.trans he', ht.trans ht'⟩

/-- One hotel of a stay, as `get_stay_rates` sees it: the configuration
fields of the `Hotel` model, with each optional provider id replaced by the
response its network call would return (`some` exactly when the id is set,
since the code calls the provider exactly for those hotels). -/
structure HotelCfg where
  name : String
  booking : Option BookingData
  hotels : Option HotelsData
  room_filter : List String
  room_patterns : List String

/-- The `booking_rates` comprehension of `get_stay_rates`: one
`booking_com_rates` call per hotel with a booking id, failure aborting the
stay. -/
def bookingCallLists (reSub : String → String → String) (hotels : List HotelCfg) :
    Except PyErr (List (List RoomRate)) :=
  (hotels.filterMap fun h => h.booking.map fun d => (h, d)).mapM
    fun hd => booking_com_rates reSub hd.1.name hd.2 hd.1.room_filter hd.1.room_patterns

/-- The `hotels_rates` comprehension of `get_stay_rates`: one
`hotels_com_rates` call per hotel with a hotels.com id. -/
def hotelsCallLists (reSub : String → String → String) (hotels : List HotelCfg) :
    Except PyErr (List (List RoomRate)) :=
  (hotels.filterMap fun h => h.hotels.map fun d => (h, d)).mapM
    fun hd => hotels_com_rates reSub hd.1.name hd.2 hd.1.room_filter hd.1.room_patterns

/-- Embedding of the body of `get_stay_rates` of `rates.py` for one stay:
flatten the per-call results of both providers and stable-sort the combined
list by `(hotel_name, total)`. -/
def get_stay_rates (reSub : String → String → String) (hotels : List HotelCfg) :
    Except PyErr (List RoomRate) := do
  let booking_rates ← bookingCallLists reSub hotels
  let hotels_rates ← hotelsCallLists reSub hotels
  let all_rates := booking_rates.flatten ++ hotels_rates.flatten
  return all_rates.insertionSort hotelTotalLe

/-- The stay aggregation as §4.6 of the spec words it (for comparison with
`get_stay_rates`, which embeds the code): invoke the provider *parsers* per
hotel, flatten all per-hotel results from both providers into one combined
list, run the best-rate reduction over the combined list — global across both
providers and all hotels — and sort the result by `(hotel_name, total)`. -/
def aggregateSpec (reSub : String → String → String) (hotels : List HotelCfg) :
    Except PyErr (List RoomRate) := do
  let booking_rates ←
    (hotels.filterMap fun h => h.booking.map fun d => (h, d)).mapM
      fun hd => _process_booking_com_rates reSub hd.1.name hd.2
        (normalizeFilter hd.1.room_filter) hd.1.room_patterns
  let hotels_rates ←
    (hotels.filterMap fun h => h.hotels.map fun d => (h, d)).mapM
      fun hd => _process_hotels_com_rates reSub hd.1.name hd.2
        (normalizeFilter hd.1.room_filter) hd.1.room_patterns
  let combined := booking_rates.flatten ++ hotels_rates.flatten
  return (_best_rates combined).insertionSort hotelTotalLe

/-- A concrete stand-in for the regex engine, used only on empty pattern
lists (where the engine is never invoked). -/
def idSub : String → String → String := fun _ s => s

/-- Association-list lookup on the embedded dict. -/
def lookupKey (k : String × String) :
    List ((String × String) × RoomRate) → Option RoomRate
  | [] => none
  | (k', v) :: m => if k' = k then some v else lookupKey k m

/-- One streaming-minimum step: the first record is taken as is, later ones go
through `pick`. -/
def minStep : Option RoomRate → RoomRate → Option RoomRate
  | none, r => some r
  | some b, r => some (pick b r)

/-- The streaming minimum of a list of records, starting from `acc`. -/
def runMin (acc : Option RoomRate) (l : List RoomRate) : Option RoomRate :=
  l.foldl minStep acc

/-- The record the streaming minimum keeps, starting from `b`. -/
def foldPick (b : RoomRate) (l : List RoomRate) : RoomRate :=
  l.foldl pick b



/-- A one-listing hotels.com response: a single primary selection for a
"Suite" with one rate plan and one price detail of the given amount. -/
def suiteListing (amount : Rat) : HotelsData :=
  ⟨.val [⟨[⟨⟨"Suite", [⟨[⟨amount⟩]⟩]⟩⟩]⟩]⟩

/-- Hotel "A", hotels.com only, no filter or patterns, quoting "Suite" at 500. -/
def cexHotelA : HotelCfg := ⟨"A", none, some (suiteListing 500), [], []⟩

/-- Hotel "B", hotels.com only, no filter or patterns, quoting "Suite" at 450. -/
def cexHotelB : HotelCfg := ⟨"B", none, some (suiteListing 450), [], []⟩

/-! ## Properties of the best-rate dict -/

theorem lookupKey_eq_none_iff {k : String × String} :
    ∀ m : List ((String × String) × RoomRate),
      lookupKey k m = none ↔ k ∉ m.map Prod.fst
  | [] => by simp [lookupKey]
  | (k', v) :: m => by
    by_cases h : k' = k
    · subst h
      simp [lookupKey]
    · simp [lookupKey, h, lookupKey_eq_none_iff m, Ne.symm h]

theorem lookupKey_mem {k : String × String} {v : RoomRate} :
    ∀ {m : List ((String × String) × RoomRate)},
      lookupKey k m = some v → (k, v) ∈ m
  | [], h => by simp [lookupKey] at h
  | (k', v') :: m, h => by
    by_cases h' : k' = k
    · subst h'
      simp only [lookupKey, if_true, eq_self_iff_true] at h
      injection h with h
      subst h
      exact List.mem_cons_self _ _
    · simp only [lookupKey, if_neg h'] at h
      exact List.mem_cons_of_mem _ (lookupKey_mem h)

theorem mem_lookupKey {k : String × String} {v : RoomRate} :
    ∀ {m : List ((String × String) × RoomRate)},
      (m.map Prod.fst).Nodup → (k, v) ∈ m → lookupKey k m = some v
  | [], _, h => by simp at h
  | (k', v') :: m, hn, h => by
    simp only [List.map_cons, List.nodup_cons] at hn
    rcases List.mem_cons.mp h with h | h
    · cases h
      simp [lookupKey]
    · have hk : k' ≠ k := by
        rintro rfl
        exact hn.1 (List.mem_map.mpr ⟨(k', v), h, rfl⟩)
      simp [lookupKey, hk, mem_lookupKey hn.2 h]

theorem updateRate_lookup :
    ∀ (m : List ((String × String) × RoomRate)) (r : RoomRate) (k : String × String),
      lookupKey k (updateRate m r) =
        if k = rateKey r then minStep (lookupKey k m) r else lookupKey k m
  | [], r, k => by
    by_cases h : k = rateKey r
    · subst h
      simp [updateRate, lookupKey, minStep]
    · simp [updateRate, lookupKey, h, minStep, Ne.symm h]
  | (k', b) :: m, r, k => by
    simp only [updateRate]
    by_cases h1 : k' = rateKey r
    · subst h1
      rw [if_pos rfl]
      by_cases h2 : k = rateKey r
      · subst h2
        simp [lookupKey, minStep]
      · have h2' : ¬rateKey r = k := fun e => h2 e.symm
        simp [lookupKey, h2, h2']
    · rw [if_neg h1]
      by_cases h2 : k' = k
      · subst h2
        simp [lookupKey, h1]
      · simp [lookupKey, h2, updateRate_lookup m r k]

theorem updateRate_keys (m : List ((String × String) × RoomRate)) (r : RoomRate) :
    (updateRate m r).map Prod.fst =
      if rateKey r ∈ m.map Prod.fst then m.map Prod.fst
      else m.map Prod.fst ++ [rateKey r] := by
  induction m with
  | nil => simp [updateRate]
  | cons hd m ih =>
    obtain ⟨k', b⟩ := hd
    simp only [updateRate]
    by_cases h1 : k' = rateKey r
    · subst h1
      simp
    · rw [if_neg h1]
      simp only [List.map_cons, List.mem_cons, ih]
      by_cases h2 : rateKey r ∈ m.map Prod.fst
      · simp [h2]
      · simp [h2, Ne.symm h1]

theorem updateRate_keys_nodup {m : List ((String × String) × RoomRate)}
    (r : RoomRate) (h : (m.map Prod.fst).Nodup) :
    ((updateRate m r).map Prod.fst).Nodup := by
  rw [updateRate_keys]
  by_cases h2 : rateKey r ∈ m.map Prod.fst
  · simpa [h2]
  · simp [h2, List.nodup_append, h]

theorem updateRate_entry_key :
    ∀ (m : List ((String × String) × RoomRate)) (r : RoomRate),
      (∀ e ∈ m, e.1 = rateKey e.2) → ∀ e ∈ updateRate m r, e.1 = rateKey e.2
  | [], r, _, e, he => by
    simp only [updateRate, List.mem_singleton] at he
    simp [he]
  | (k', b) :: m, r, h, e, he => by
    simp only [updateRate] at he
    by_cases h1 : k' = rateKey r
    · rw [if_pos h1] at he
      rcases List.mem_cons.mp he with rfl | he
      · have hb : k' = rateKey b := h (k', b) (List.mem_cons_self _ _)
        by_cases hp : b.total > r.total
        · simpa [pick, hp] using h1
        · simpa [pick, hp] using hb
      · exact h e (List.mem_cons_of_mem _ he)
    · rw [if_neg h1] at he
      rcases List.mem_cons.mp he with rfl | he
      · exact h _ (List.mem_cons_self _ _)
      · exact updateRate_entry_key m r (fun e' he' => h e' (List.mem_cons_of_mem _ he')) e he

theorem updateRate_snd :
    ∀ (m : List ((String × String) × RoomRate)) (r : RoomRate),
      ∀ e ∈ updateRate m r, e.2 ∈ m.map Prod.snd ∨ e.2 = r
  | [], r, e, he => by
    simp only [updateRate, List.mem_singleton] at he
    simp [he]
  | (k', b) :: m, r, e, he => by
    simp only [updateRate] at he
    by_cases h1 : k' = rateKey r
    · rw [if_pos h1] at he
      rcases List.mem_cons.mp he with rfl | he
      · by_cases hp : b.total > r.total
        · exact Or.inr (by simp [pick, hp])
        · exact Or.inl (by simp [pick, hp])
      · exact Or.inl (List.mem_map.mpr ⟨e, List.mem_cons_of_mem _ he, rfl⟩)
    · rw [if_neg h1] at he
      rcases List.mem_cons.mp he with rfl | he
      · exact Or.inl (List.mem_map.mpr ⟨(k', b), List.mem_cons_self _ _, rfl⟩)
      · rcases updateRate_snd m r e he with hm | hr
        · obtain ⟨e', he', hee⟩ := List.mem_map.mp hm
          exact Or.inl (List.mem_map.mpr ⟨e', List.mem_cons_of_mem _ he', hee⟩)
        · exact Or.inr hr

theorem foldl_updateRate_lookup :
    ∀ (l : List RoomRate) (m : List ((String × String) × RoomRate)) (k : String × String),
      lookupKey k (l.foldl updateRate m) =
        runMin (lookupKey k m) (l.filter fun r => decide (rateKey r = k))
  | [], _, _ => rfl
  | r :: t, m, k => by
    simp only [List.foldl_cons, List.filter_cons]
    by_cases h : rateKey r = k
    · subst h
      rw [foldl_updateRate_lookup t, updateRate_lookup, if_pos rfl]
      simp [runMin]
    · have h' : ¬k = rateKey r := fun e => h e.symm
      rw [foldl_updateRate_lookup t, updateRate_lookup, if_neg h']
      simp [h]

theorem foldl_keys_nodup :
    ∀ (l : List RoomRate) (m : List ((String × String) × RoomRate)),
      (m.map Prod.fst).Nodup → ((l.foldl updateRate m).map Prod.fst).Nodup
  | [], _, h => h
  | r :: t, _, h => foldl_keys_nodup t _ (updateRate_keys_nodup r h)

theorem foldl_entry_key :
    ∀ (l : List RoomRate) (m : List ((String × String) × RoomRate)),
      (∀ e ∈ m, e.1 = rateKey e.2) → ∀ e ∈ l.foldl updateRate m, e.1 = rateKey e.2
  | [], _, h => h
  | r :: t, m, h => foldl_entry_key t _ (updateRate_entry_key m r h)

theorem foldl_snd :
    ∀ (l : List RoomRate) (m : List ((String × String) × RoomRate)),
      ∀ e ∈ l.foldl updateRate m, e.2 ∈ m.map Prod.snd ∨ e.2 ∈ l
  | [], _, e, he => Or.inl (List.mem_map.mpr ⟨e, he, rfl⟩)
  | r :: t, m, e, he => by
    rcases foldl_snd t (updateRate m r) e he with hm | ht
    · obtain ⟨e', he', hee⟩ := List.mem_map.mp hm
      rcases updateRate_snd m r e' he' with hm' | hr
      · exact Or.inl (hee ▸ hm')
      · exact Or.inr (by rw [← hee, hr]; exact List.mem_cons_self _ _)
    · exact Or.inr (List.mem_cons_of_mem _ ht)

theorem ratesMap_keys_nodup (rates : List RoomRate) :
    ((ratesMap rates).map Prod.fst).Nodup :=
  foldl_keys_nodup rates [] (by simp)

theorem ratesMap_entry_key (rates : List RoomRate) :
    ∀ e ∈ ratesMap rates, e.1 = rateKey e.2 :=
  foldl_entry_key rates [] (by simp)

theorem ratesMap_lookup (rates : List RoomRate) (k : String × String) :
    lookupKey k (ratesMap rates) =
      runMin none (rates.filter fun r => decide (rateKey r = k)) :=
  foldl_updateRate_lookup rates [] k

theorem ratesMap_snd_mem (rates : List RoomRate) :
    ∀ e ∈ ratesMap rates, e.2 ∈ rates := by
  intro e he
  rcases foldl_snd rates [] e he with hm | h
  · simp at hm
  · exact h

theorem runMin_some :
    ∀ (l : List RoomRate) (b : RoomRate), runMin (some b) l = some (foldPick b l)
  | [], _ => rfl
  | r :: t, b => by
    simp only [runMin, foldPick, List.foldl_cons, minStep]
    exact runMin_some t (pick b r)

theorem pick_le_left (b r : RoomRate) : (pick b r).total ≤ b.total := by
  by_cases h : b.total > r.total
  · simp only [pick, if_pos h]
    exact le_of_lt h
  · simp [pick, if_neg h]

theorem pick_le_right (b r : RoomRate) : (pick b r).total ≤ r.total := by
  by_cases h : b.total > r.total
  · simp [pick, if_pos h]
  · simp only [pick, if_neg h]
    exact le_of_not_lt h

theorem foldPick_mem :
    ∀ (l : List RoomRate) (b : RoomRate), foldPick b l ∈ b :: l
  | [], b => by simp [foldPick]
  | r :: t, b => by
    have ih := foldPick_mem t (pick b r)
    simp only [foldPick, List.foldl_cons]
    rcases List.mem_cons.mp ih with h | h
    · by_cases hp : b.total > r.total
      · rw [foldPick] at h
        rw [h]
        simp [pick, hp]
      · rw [foldPick] at h
        rw [h]
        simp [pick, hp]
    · exact List.mem_cons_of_mem _ (List.mem_cons_of_mem _ h)

theorem foldPick_le :
    ∀ (l : List RoomRate) (b : RoomRate), ∀ x ∈ b :: l, (foldPick b l).total ≤ x.total
  | [], b, x, hx => by
    rcases List.mem_cons.mp hx with rfl | hx
    · simp [foldPick]
    · simp at hx
  | r :: t, b, x, hx => by
    have ih := foldPick_le t (pick b r)
    simp only [foldPick, List.foldl_cons] at ih ⊢
    rcases List.mem_cons.mp hx with hxe | hx
    · rw [hxe]
      exact (ih (pick b r) (List.mem_cons_self _ _)).trans (pick_le_left b r)
    rcases List.mem_cons.mp hx with hxe | hx
    · rw [hxe]
      exact (ih (pick b r) (List.mem_cons_self _ _)).trans (pick_le_right b r)
    · exact ih x (List.mem_cons_of_mem _ hx)

theorem foldPick_find? :
    ∀ (l : List RoomRate) (b : RoomRate),
      (b :: l).find? (fun x => decide (x.total ≤ (foldPick b l).total)) =
        some (foldPick b l)
  | [], b => by simp [foldPick, List.find?_cons]
  | r :: t, b => by
    have ih := foldPick_find? t (pick b r)
    have hfp : foldPick b (r :: t) = foldPick (pick b r) t := by
      simp [foldPick]
    rw [hfp]
    by_cases hbr : b.total > r.total
    · have hpr : pick b r = r := by simp [pick, hbr]
      rw [hpr] at ih
      have h1 : (foldPick r t).total ≤ r.total :=
        foldPick_le t r r (List.mem_cons_self _ _)
      have hcb : ¬b.total ≤ (foldPick r t).total := fun hle =>
        absurd (hle.trans h1) (not_le.mpr hbr)
      rw [hpr]
      simp only [List.find?_cons, decide_eq_false hcb]
      exact ih
    · have hpb : pick b r = b := by simp [pick, hbr]
      rw [hpb] at ih
      rw [hpb]
      by_cases hb : b.total ≤ (foldPick b t).total
      · simp only [List.find?_cons, decide_eq_true hb] at ih
        simp only [List.find?_cons, decide_eq_true hb]
        exact ih
      · simp only [List.find?_cons, decide_eq_false hb] at ih
        have hrc : ¬r.total ≤ (foldPick b t).total := fun hle =>
          hb ((not_lt.mp hbr).trans hle)
        simp only [List.find?_cons, decide_eq_false hb, decide_eq_false hrc]
        exact ih

theorem find?_filterB {α : Type} :
    ∀ (l : List α) (p q : α → Bool),
      (l.filter p).find? q = l.find? fun a => p a && q a
  | [], _, _ => rfl
  | x :: t, p, q => by
    cases hp : p x with
    | true =>
      cases hq : q x with
      | true => simp [List.filter_cons, List.find?_cons, hp, hq]
      | false =>
        simp only [List.filter_cons, hp, if_true, List.find?_cons, hq, Bool.true_and]
        exact find?_filterB t p q
    | false =>
      simp only [List.filter_cons, hp, Bool.false_eq_true, if_false, List.find?_cons,
        Bool.false_and]
      exact find?_filterB t p q

theorem find?_congr_mem {α : Type} :
    ∀ (l : List α) (p q : α → Bool), (∀ x ∈ l, p x = q x) → l.find? p = l.find? q
  | [], _, _, _ => rfl
  | x :: t, p, q, h => by
    have hx := h x (List.mem_cons_self _ _)
    cases hq : q x with
    | true => simp [List.find?_cons, hx, hq]
    | false =>
      simpa [List.find?_cons, hx, hq] using
        find?_congr_mem t p q fun y hy => h y (List.mem_cons_of_mem _ hy)

theorem ratesMap_lookup_self {rates : List RoomRate} {r : RoomRate}
    (h : r ∈ (ratesMap rates).map Prod.snd) :
    lookupKey (rateKey r) (ratesMap rates) = some r := by
  obtain ⟨e, he, hee⟩ := List.mem_map.mp h
  have hk := ratesMap_entry_key rates e he
  have he' : (rateKey r, r) ∈ ratesMap rates := by
    obtain ⟨k, v⟩ := e
    have hee' : v = r := hee
    subst hee'
    have hk' : k = rateKey v := hk
    rw [hk'] at he
    exact he
  exact mem_lookupKey (ratesMap_keys_nodup rates) he'

theorem runMin_none_cons (x : RoomRate) (t : List RoomRate) :
    runMin none (x :: t) = some (foldPick x t) := by
  simp only [runMin, List.foldl_cons, minStep]
  exact runMin_some t x

theorem mem_best_rates_spec {rates : List RoomRate} {r : RoomRate}
    (h : r ∈ _best_rates rates) :
    r ∈ rates ∧
    (∀ x ∈ rates, rateKey x = rateKey r → r.total ≤ x.total) ∧
    rates.find?
      (fun x => decide (rateKey x = rateKey r) && decide (x.total = r.total)) = some r := by
  have hv : r ∈ (ratesMap rates).map Prod.snd := (List.mem_insertionSort _).mp h
  have hmem : r ∈ rates := by
    obtain ⟨e, he, hee⟩ := List.mem_map.mp hv
    exact hee ▸ ratesMap_snd_mem rates e he
  have hlk := ratesMap_lookup_self hv
  rw [ratesMap_lookup] at hlk
  revert hlk
  cases hfl : rates.filter (fun x => decide (rateKey x = rateKey r)) with
  | nil =>
    intro hlk
    simp [runMin] at hlk
  | cons x t =>
    intro hlk
    rw [runMin_none_cons] at hlk
    injection hlk with hlk
    have hmin : ∀ y ∈ rates, rateKey y = rateKey r → r.total ≤ y.total := by
      intro y hy hky
      have hyl : y ∈ x :: t := by
        rw [← hfl]
        exact List.mem_filter.mpr ⟨hy, by simp [hky]⟩
      calc r.total = (foldPick x t).total := by rw [hlk]
        _ ≤ y.total := foldPick_le t x y hyl
    have hfind := foldPick_find? t x
    rw [hlk, ← hfl, find?_filterB] at hfind
    have hconv :
        rates.find? (fun a => decide (rateKey a = rateKey r) && decide (a.total ≤ r.total)) =
          rates.find? (fun a => decide (rateKey a = rateKey r) && decide (a.total = r.total)) := by
      apply find?_congr_mem
      intro y hy
      by_cases hk : rateKey y = rateKey r
      · have h1 := hmin y hy hk
        by_cases hle : y.total ≤ r.total
        · have he : y.total = r.total := le_antisymm hle h1
          simp [hle, he]
        · have hne : ¬y.total = r.total := fun e => hle (le_of_eq e)
          simp [hle, hne]
      · simp [hk]
    rw [hconv] at hfind
    exact ⟨hmem, hmin, hfind⟩

theorem key_represented {rates : List RoomRate} {x : RoomRate} (hx : x ∈ rates) :
    ∃ r ∈ _best_rates rates, rateKey r = rateKey x := by
  have hxf : x ∈ rates.filter (fun y => decide (rateKey y = rateKey x)) :=
    List.mem_filter.mpr ⟨hx, by simp⟩
  revert hxf
  cases hfl : rates.filter (fun y => decide (rateKey y = rateKey x)) with
  | nil =>
    intro hxf
    simp at hxf
  | cons y t =>
    intro _
    have hlk := ratesMap_lookup rates (rateKey x)
    rw [hfl, runMin_none_cons] at hlk
    have hmemmap := lookupKey_mem hlk
    refine ⟨foldPick y t, ?_, ?_⟩
    · exact (List.mem_insertionSort _).mpr (List.mem_map.mpr ⟨_, hmemmap, rfl⟩)
    · exact (ratesMap_entry_key rates _ hmemmap).symm

theorem nodup_countP_le_one {α : Type} [DecidableEq α] :
    ∀ (l : List α), l.Nodup → ∀ k : α, l.countP (fun x => decide (x = k)) ≤ 1
  | [], _, _ => by simp
  | x :: t, h, k => by
    rw [List.countP_cons]
    rcases List.nodup_cons.mp h with ⟨hx, ht⟩
    by_cases he : x = k
    · subst he
      have hz : t.countP (fun y => decide (y = x)) = 0 := by
        rw [List.countP_eq_zero]
        intro y hy
        simp only [decide_eq_true_eq]
        rintro rfl
        exact hx hy
      simp [hz]
    · simp only [he, decide_False, Bool.false_eq_true, if_false, Nat.add_zero]
      exact nodup_countP_le_one t ht k

theorem best_rates_countP (rates : List RoomRate) (k : String × String) :
    (_best_rates rates).countP (fun r => decide (rateKey r = k)) ≤ 1 := by
  have hperm : List.Perm (_best_rates rates) ((ratesMap rates).map Prod.snd) :=
    List.perm_insertionSort _ _
  rw [hperm.countP_eq, List.countP_map]
  have hc : (ratesMap rates).countP ((fun r => decide (rateKey r = k)) ∘ Prod.snd) =
      (ratesMap rates).countP ((fun x => decide (x = k)) ∘ Prod.fst) := by
    apply List.countP_congr
    intro e he
    have hk := ratesMap_entry_key rates e he
    simp [Function.comp, hk]
  rw [hc, ← List.countP_map]
  exact nodup_countP_le_one _ (ratesMap_keys_nodup rates) k

theorem hasSub_iff : ∀ n h : List Char, hasSub n h = true ↔ n <:+: h
  | n, [] => by
    simp [hasSub, List.isEmpty_iff]
  | n, c :: t => by
    simp [hasSub, List.isPrefixOf_iff_prefix, hasSub_iff n t, List.infix_cons_iff]

/-- C6: the room filter matches every name when the filter set is empty;
otherwise, with both the candidate name and each filter term lower-cased and
whitespace-trimmed, a room is retained iff at least one filter term occurs as
a contiguous substring of the room name. -/
theorem room_filter_spec (room_filter : List String) (name : String) :
    keepRoom (normalizeFilter room_filter) name = true ↔
      (room_filter = [] ∨ ∃ t ∈ room_filter,
        (pyStrip (pyLower t)).data <:+: (pyStrip (pyLower name)).data) := by
  simp [keepRoom, normalizeFilter, List.isEmpty_iff, List.map_eq_nil_iff,
    List.all_eq_true, hasSub_iff]

/-- C7: the two parsers apply filtering and normalization in opposite orders.
The booking-style parser tests the filter against the already-normalized name
(pattern substitutions applied first); the hotels-style parser tests the
filter against the raw header text and normalizes only entries that pass.
Both emit the normalized name as `room_type`. -/
theorem filter_normalize_order (reSub : String → String → String)
    (hotel_name : String) (filt pats : List String) (room : BookingRoom)
    (rest : List BookingRoom) (listing : HotelsListing) (sel : HotelsSelection)
    (rest' : List HotelsListing) (amount : Int) :
    (keepRoom filt (normalizeName reSub pats room.name) = false →
      processBookingRooms reSub hotel_name filt pats (room :: rest) =
        processBookingRooms reSub hotel_name filt pats rest) ∧
    (keepRoom filt (normalizeName reSub pats room.name) = true →
      parseAmount room.amount_rounded = some amount →
      processBookingRooms reSub hotel_name filt pats (room :: rest) =
        (processBookingRooms reSub hotel_name filt pats rest).map
          fun tail =>
            ⟨.booking_com, hotel_name, normalizeName reSub pats room.name,
              (amount : Rat), room.policy⟩ :: tail) ∧
    (listing.primarySelections = [sel] →
      keepRoom filt sel.propertyUnit.headerText = false →
      processHotelsListings reSub hotel_name filt pats (listing :: rest') =
        processHotelsListings reSub hotel_name filt pats rest') ∧
    (listing.primarySelections = [sel] →
      keepRoom filt sel.propertyUnit.headerText = true →
      processHotelsListings reSub hotel_name filt pats (listing :: rest') =
        (processHotelsListings reSub hotel_name filt pats rest').map
          fun tail =>
            emitHotelsRates hotel_name
              (normalizeName reSub pats sel.propertyUnit.headerText)
              sel.propertyUnit.ratePlans ++ tail) := by
  refine ⟨?_, ?_, ?_, ?_⟩
  · intro hk
    simp [processBookingRooms, hk]
  · intro hk hp
    simp [processBookingRooms, hk, hp]
  · intro hsel hk
    simp [processHotelsListings, hsel, hk]
  · intro hsel hk
    simp [processHotelsListings, hsel, hk]

/-- C3 (counterexample): a hotels.com response whose categorized-listings key
is absent makes the parse fail with a `KeyError`; it does not return the
empty rate list. -/
theorem hotels_absent_key_cex :
    _process_hotels_com_rates idSub "Hotel" ⟨.absent⟩ [] [] =
      .error (.keyError "categorizedListings") ∧
    _process_hotels_com_rates idSub "Hotel" ⟨.absent⟩ [] [] ≠ .ok [] := by
  decide

/-- C3 (amended): a `null` categorized-listings value is treated as the empty
array, so the parser returns no rates; an *absent* key instead fails the
parse with a `KeyError`. -/
theorem hotels_null_listings (reSub : String → String → String)
    (hotel_name : String) (filt pats : List String) :
    _process_hotels_com_rates reSub hotel_name ⟨.null⟩ filt pats = .ok [] ∧
    _process_hotels_com_rates reSub hotel_name ⟨.absent⟩ filt pats =
      .error (.keyError "categorizedListings") :=
  ⟨rfl, rfl⟩

theorem processHotelsListings_error :
    ∀ (reSub : String → String → String) (hotel_name : String)
      (rooms_filter room_patterns : List String) (listings : List HotelsListing),
      (∃ l ∈ listings, l.primarySelections.length ≠ 1) →
      processHotelsListings reSub hotel_name rooms_filter room_patterns listings =
        .error multiRoomErr
  | _, _, _, _, [], h => by simp at h
  | reSub, hn, filt, pats, listing :: rest, h => by
    obtain ⟨l, hl, hne⟩ := h
    rcases List.mem_cons.mp hl with rfl | hl
    · cases hsel : l.primarySelections with
      | nil => simp [processHotelsListings, hsel]
      | cons s ss =>
        cases ss with
        | nil =>
          rw [hsel] at hne
          simp at hne
        | cons s2 ss2 => simp [processHotelsListings, hsel]
    · cases hsel : listing.primarySelections with
      | nil => simp [processHotelsListings, hsel]
      | cons s ss =>
        cases ss with
        | nil =>
          have ih := processHotelsListings_error reSub hn filt pats rest ⟨l, hl, hne⟩
          by_cases hk : keepRoom filt s.propertyUnit.headerText = true
          · simp [processHotelsListings, hsel, hk, ih, Except.map]
          · simp [processHotelsListings, hsel, hk, ih]
        | cons s2 ss2 => simp [processHotelsListings, hsel]

/-- C4: if any listing of a hotels.com response has more than one primary
selection, the whole parse fails with the multi-room `ValueError` and
contributes zero records, regardless of other valid listings. -/
theorem multi_room_guard (reSub : String → String → String) (hotel_name : String)
    (rooms_filter room_patterns : List String) (listings : List HotelsListing)
    (h : ∃ l ∈ listings, 1 < l.primarySelections.length) :
    _process_hotels_com_rates reSub hotel_name ⟨.val listings⟩ rooms_filter
      room_patterns = .error multiRoomErr := by
  obtain ⟨l, hl, hlt⟩ := h
  show processHotelsListings reSub hotel_name rooms_filter room_patterns listings =
    .error multiRoomErr
  exact processHotelsListings_error reSub hotel_name rooms_filter room_patterns
    listings ⟨l, hl, by omega⟩

/-- Witness for C4: a response holding one valid listing and one listing with
two primary selections fails with the multi-room error. -/
theorem multi_room_guard_witness :
    (∃ l ∈ [(⟨[⟨⟨"Suite", [⟨[⟨300⟩]⟩]⟩⟩]⟩ : HotelsListing),
            ⟨[⟨⟨"Twin", [⟨[⟨200⟩]⟩]⟩⟩, ⟨⟨"Twin", [⟨[⟨210⟩]⟩]⟩⟩]⟩],
        1 < l.primarySelections.length) ∧
    _process_hotels_com_rates idSub "H"
        ⟨.val [⟨[⟨⟨"Suite", [⟨[⟨300⟩]⟩]⟩⟩]⟩,
               ⟨[⟨⟨"Twin", [⟨[⟨200⟩]⟩]⟩⟩, ⟨⟨"Twin", [⟨[⟨210⟩]⟩]⟩⟩]⟩]⟩ [] [] =
      .error multiRoomErr :=
  ⟨by decide, multi_room_guard idSub "H" [] [] _ (by decide)⟩

/-- C10: the multi-room error is raised for every listing whose
primary-selections array has length different from one — including zero
selections — not only for more than one. -/
theorem multi_room_any_ne_one (reSub : String → String → String)
    (hotel_name : String) (rooms_filter room_patterns : List String)
    (listings : List HotelsListing)
    (h : ∃ l ∈ listings, l.primarySelections.length ≠ 1) :
    _process_hotels_com_rates reSub hotel_name ⟨.val listings⟩ rooms_filter
      room_patterns = .error multiRoomErr := by
  show processHotelsListings reSub hotel_name rooms_filter room_patterns listings =
    .error multiRoomErr
  exact processHotelsListings_error reSub hotel_name rooms_filter room_patterns
    listings h

/-- Witness for C10: a listing with zero primary selections also raises the
multi-room error. -/
theorem multi_room_any_ne_one_witness :
    (∃ l ∈ [(⟨[]⟩ : HotelsListing)], l.primarySelections.length ≠ 1) ∧
    _process_hotels_com_rates idSub "H" ⟨.val [⟨[]⟩]⟩ [] [] =
      .error multiRoomErr :=
  ⟨by decide, multi_room_any_ne_one idSub "H" [] [] _ (by decide)⟩

/-- C8: the booking-style parser strips the currency symbol and thousands
separators and converts the remainder to an integer; in particular the raw
amount string `"£1,234"` parses to `1234`, and a room priced `"£1,234"` is
emitted with total `1234`. -/
theorem currency_parsing :
    parseAmount "£1,234" = some 1234 ∧
    _process_booking_com_rates idSub "Grand"
        ⟨[⟨"Deluxe Suite", "£1,234", "Free cancellation"⟩]⟩ [] [] =
      .ok [⟨.booking_com, "Grand", "Deluxe Suite", 1234, "Free cancellation"⟩] := by
  decide

/-- C9: every record in the best-rate reducer's output is one of the records
of its input, unchanged — the reducer only selects among existing records. -/
theorem best_rates_selects_existing (rates : List RoomRate) :
    ∀ r ∈ _best_rates rates, r ∈ rates := by
  intro r hr
  have hv := (List.mem_insertionSort _).mp hr
  obtain ⟨e, he, hee⟩ := List.mem_map.mp hv
  exact hee ▸ ratesMap_snd_mem rates e he

/-- Witness for C9 at a concrete input. -/
theorem best_rates_selects_existing_witness :
    (⟨.booking_com, "A", "Suite", 450, "Refundable"⟩ : RoomRate) ∈
      [(⟨.booking_com, "A", "Suite", 500, "Refundable"⟩ : RoomRate),
       ⟨.booking_com, "A", "Suite", 450, "Refundable"⟩] :=
  best_rates_selects_existing
    [⟨.booking_com, "A", "Suite", 500, "Refundable"⟩,
     ⟨.booking_com, "A", "Suite", 450, "Refundable"⟩]
    ⟨.booking_com, "A", "Suite", 450, "Refundable"⟩ (by decide)

/-- C2: the reducer's output has at most one record per `(room_type, policy)`
key; every output record carries the minimum total among the input records
sharing its key and is the first input record attaining that minimum (strict
comparison, first-seen wins ties); and every input key is represented. -/
theorem best_rates_dedup_min (rates : List RoomRate) (k : String × String) :
    (_best_rates rates).countP (fun r => decide (rateKey r = k)) ≤ 1 ∧
    (∀ r ∈ _best_rates rates,
      r ∈ rates ∧
      (∀ x ∈ rates, rateKey x = rateKey r → r.total ≤ x.total) ∧
      rates.find?
        (fun x => decide (rateKey x = rateKey r) && decide (x.total = r.total)) =
        some r) ∧
    (∀ x ∈ rates, ∃ r ∈ _best_rates rates, rateKey r = rateKey x) := by
  refine ⟨best_rates_countP rates k, ?_, ?_⟩
  · intro r hr
    exact mem_best_rates_spec hr
  · intro x hx
    exact key_represented hx

/-- C5: the reducer's output is non-decreasing in total, and the stay
aggregator's output is non-decreasing in `(hotel_name, total)`
lexicographically. -/
theorem sort_invariant :
    (∀ rates : List RoomRate, (_best_rates rates).Sorted totalLe) ∧
    (∀ (reSub : String → String → String) (hotels : List HotelCfg)
        (out : List RoomRate),
      get_stay_rates reSub hotels = .ok out → out.Sorted hotelTotalLe) := by
  constructor
  · intro rates
    exact List.sorted_insertionSort totalLe _
  · intro reSub hotels out h
    unfold get_stay_rates at h
    cases hb : bookingCallLists reSub hotels with
    | error e =>
      rw [hb] at h
      simp [Bind.bind, Except.bind] at h
    | ok bs =>
      cases hh : hotelsCallLists reSub hotels with
      | error e =>
        rw [hb, hh] at h
        simp [Bind.bind, Except.bind] at h
      | ok hs =>
        rw [hb, hh] at h
        simp only [Bind.bind, Except.bind, pure, Except.pure, Except.ok.injEq] at h
        rw [← h]
        exact List.sorted_insertionSort hotelTotalLe _

/-- C1 (amended): for every stay, the aggregator flattens the per-hotel,
per-provider call results — each already reduced by `_best_rates` inside its
own provider call — into one combined list and returns that list stable-sorted
ascending by `(hotel_name, total)`; best-rate selection is per hotel-provider
call, not global across the combined list. -/
theorem stay_rates_per_call (reSub : String → String → String)
    (hotels : List HotelCfg) (out : List RoomRate)
    (h : get_stay_rates reSub hotels = .ok out) :
    ∃ bs hs,
      bookingCallLists reSub hotels = .ok bs ∧
      hotelsCallLists reSub hotels = .ok hs ∧
      out = (bs.flatten ++ hs.flatten).insertionSort hotelTotalLe ∧
      List.Perm out (bs.flatten ++ hs.flatten) := by
  unfold get_stay_rates at h
  cases hb : bookingCallLists reSub hotels with
  | error e =>
    rw [hb] at h
    simp [Bind.bind, Except.bind] at h
  | ok bs =>
    cases hh : hotelsCallLists reSub hotels with
    | error e =>
      rw [hb, hh] at h
      simp [Bind.bind, Except.bind] at h
    | ok hs =>
      rw [hb, hh] at h
      simp only [Bind.bind, Except.bind, pure, Except.pure, Except.ok.injEq] at h
      exact ⟨bs, hs, rfl, rfl, h.symm, h ▸ List.perm_insertionSort _ _⟩

/-- Witness for C1's amended statement at a concrete two-hotel stay. -/
theorem stay_rates_per_call_witness :
    ∃ bs hs,
      bookingCallLists idSub [cexHotelA, cexHotelB] = .ok bs ∧
      hotelsCallLists idSub [cexHotelA, cexHotelB] = .ok hs ∧
      ([⟨.hotels_com, "A", "Suite", 500, "Unknown"⟩,
        ⟨.hotels_com, "B", "Suite", 450, "Unknown"⟩] : List RoomRate) =
        (bs.flatten ++ hs.flatten).insertionSort hotelTotalLe ∧
      List.Perm
        ([⟨.hotels_com, "A", "Suite", 500, "Unknown"⟩,
          ⟨.hotels_com, "B", "Suite", 450, "Unknown"⟩] : List RoomRate)
        (bs.flatten ++ hs.flatten) :=
  stay_rates_per_call idSub [cexHotelA, cexHotelB] _ (by decide)

/-- C1 (counterexample): with two hotels quoting the same `(room_type,
policy)` key, the code keeps one record per hotel (reduction happened per
provider call), while the spec's global reduction over the combined list
would keep only the cheaper one — so the aggregator is not the spec's
flatten-reduce-sort composition. -/
theorem stay_rates_not_global_cex :
    get_stay_rates idSub [cexHotelA, cexHotelB] =
      .ok [⟨.hotels_com, "A", "Suite", 500, "Unknown"⟩,
           ⟨.hotels_com, "B", "Suite", 450, "Unknown"⟩] ∧
    aggregateSpec idSub [cexHotelA, cexHotelB] =
      .ok [⟨.hotels_com, "B", "Suite", 450, "Unknown"⟩] ∧
    get_stay_rates idSub [cexHotelA, cexHotelB] ≠
      aggregateSpec idSub [cexHotelA, cexHotelB] := by
  decide
